import Mathlib

/-!
Verification model of `src/crowdstrike/cloud/sensor-helm-install.py`
(iIT-Distribution/scripts): a shallow embedding of the deployment plan and
execution engine — version resolution, per-component planning, plan
ordering, configuration persistence, payload rendering, and the
interactive executor — together with theorems settling the specification
claims about them.

Interactive prompting, console rendering, file I/O and process spawning
are modelled as explicit inputs (answers to prompts, a `Runner` oracle for
external processes, tag lists for the registry catalog); every function
here mirrors a concrete piece of the Python source, keyed by the source
names.
-/

namespace SensorHelmInstall

/-! ### Python string helpers

Python `str.split(sep)` for a one-character separator, over the string's
characters.  `"".split('.') == ['']` and a trailing separator yields a
trailing empty part, which the definitions below reproduce. -/

def splitOnChar (sep : Char) : List Char → List (List Char)
  | [] => [[]]
  | c :: rest =>
    let r := splitOnChar sep rest
    if c = sep then [] :: r
    else
      match r with
      | [] => [[c]]
      | p :: ps => (c :: p) :: ps

/-- The ASCII characters CPython's `int()` strips as surrounding
whitespace: `0x09`–`0x0D` and the space. -/
def isPySpace (c : Char) : Bool :=
  c.toNat = 0x20 || (0x09 ≤ c.toNat && c.toNat ≤ 0x0D)

/-- The decimal value of a digit string (underscores already removed). -/
def digitsValue (cs : List Char) : Nat :=
  cs.foldl (fun n c => 10 * n + (c.toNat - 48)) 0

/-- After an initial digit, `int()` accepts any sequence of digits with
single underscores strictly between digits: `(digit | '_' digit)*`. -/
def pyDigitsTail : List Char → Bool
  | [] => true
  | ['_'] => false
  | '_' :: c :: rest => c.isDigit && pyDigitsTail rest
  | c :: rest => c.isDigit && pyDigitsTail rest

/-- The unsigned number body of `int()`: a digit followed by digits with
underscore grouping; its decimal value ignores the underscores. -/
def pyIntBody (cs : List Char) : Option Nat :=
  match cs with
  | [] => none
  | c :: rest =>
    if c.isDigit && pyDigitsTail rest then
      some (digitsValue ((c :: rest).filter (fun c => c ≠ '_')))
    else none

/-- Models Python `int(s)` for ASCII strings, exactly: strip surrounding
whitespace, an optional single `'+'` or `'-'` sign, then digits with
single underscores between digits (`int("1_0") = 10`); everything else
raises `ValueError` (here: `none`).  Python also accepts non-ASCII
decimal digits and whitespace; those code points are outside this model,
and the theorems over version parsing assume ASCII tags (every tag a
container registry accepts is ASCII). -/
def parsePyInt (cs : List Char) : Option Int :=
  let cs := cs.dropWhile isPySpace
  let cs := (cs.reverse.dropWhile isPySpace).reverse
  match cs with
  | '+' :: rest => (pyIntBody rest).map (fun n => (n : Int))
  | '-' :: rest => (pyIntBody rest).map (fun n => -(n : Int))
  | rest => (pyIntBody rest).map (fun n => (n : Int))

/-- Is a string pure ASCII?  On this domain `parsePyInt` agrees with
CPython `int()` and `Char.isDigit` with `str.isdigit()`. -/
def asciiOnly (s : String) : Bool :=
  s.toList.all (fun c => c.toNat < 128)

/-- `version_to_tuple` (source lines 401–406): split off a `-suffix`, split
the remainder on `'.'`, parse every part as an integer; on any parse
failure return `(0,)`.  (The segments contain no `'-'` — the string was
split on it — but may carry `'+'`, whitespace or underscores, which
`int()` accepts.) -/
def version_to_tuple (v : String) : List Int :=
  let base := (splitOnChar '-' v.toList).headD []
  let parts := splitOnChar '.' base
  match parts.mapM parsePyInt with
  | some ns => ns
  | none => [0]

/-! ### Python tuple comparison

Python compares integer tuples lexicographically, a strict prefix being
smaller; `x <= y` is `x < y or x == y`. -/

def tupLt : List Int → List Int → Bool
  | [], [] => false
  | [], _ :: _ => true
  | _ :: _, [] => false
  | a :: as, b :: bs => if a < b then true else if b < a then false else tupLt as bs

def tupLe (x y : List Int) : Bool := tupLt x y || x == y

theorem tupLt_irrefl : ∀ a : List Int, tupLt a a = false
  | [] => rfl
  | a :: as => by simp [tupLt, tupLt_irrefl as]

theorem tupLt_asymm : ∀ {a b : List Int}, tupLt a b = true → tupLt b a = false
  | [], [], h => by simp [tupLt] at h
  | [], _ :: _, _ => rfl
  | _ :: _, [], h => by simp [tupLt] at h
  | a :: as, b :: bs, h => by
    simp only [tupLt] at h ⊢
    split_ifs at h ⊢
    all_goals first | rfl | omega | (exact tupLt_asymm h)

theorem tupLt_trans : ∀ {a b c : List Int},
    tupLt a b = true → tupLt b c = true → tupLt a c = true
  | [], _, [], _, h2 => by cases h2' : tupLt _ ([] : List Int) <;> simp_all [tupLt_asymm]
  | [], _, _ :: _, _, _ => rfl
  | _ :: _, [], _, h1, _ => by simp [tupLt] at h1
  | _ :: _, _ :: _, [], _, h2 => by simp [tupLt] at h2
  | a :: as, b :: bs, c :: cs, h1, h2 => by
    simp only [tupLt] at h1 h2 ⊢
    split_ifs at h1 h2 ⊢ <;> first | rfl | omega | (exact tupLt_trans h1 h2)

theorem tupLt_total : ∀ a b : List Int, tupLt a b = true ∨ tupLt b a = true ∨ a = b
  | [], [] => Or.inr (Or.inr rfl)
  | [], _ :: _ => Or.inl rfl
  | _ :: _, [] => Or.inr (Or.inl rfl)
  | a :: as, b :: bs => by
    rcases lt_trichotomy a b with h | h | h
    · exact Or.inl (by simp [tupLt, h])
    · subst h
      rcases tupLt_total as bs with h' | h' | h'
      · exact Or.inl (by simp [tupLt, h'])
      · exact Or.inr (Or.inl (by simp [tupLt, h']))
      · exact Or.inr (Or.inr (by rw [h']))
    · exact Or.inr (Or.inl (by simp [tupLt, h]))

theorem tupLe_refl (a : List Int) : tupLe a a = true := by simp [tupLe]

theorem tupLe_total (a b : List Int) : tupLe a b = true ∨ tupLe b a = true := by
  rcases tupLt_total a b with h | h | h
  · exact Or.inl (by simp [tupLe, h])
  · exact Or.inr (by simp [tupLe, h])
  · exact Or.inl (by simp [tupLe, h])

theorem tupLe_trans {a b c : List Int}
    (h1 : tupLe a b = true) (h2 : tupLe b c = true) : tupLe a c = true := by
  simp only [tupLe, Bool.or_eq_true, beq_iff_eq] at h1 h2 ⊢
  rcases h1 with h1 | h1 <;> rcases h2 with h2 | h2
  · exact Or.inl (tupLt_trans h1 h2)
  · subst h2; exact Or.inl h1
  · subst h1; exact Or.inl h2
  · subst h1; exact Or.inr h2

/-- If `a < b` as tuples then Python's `b <= a` is false. -/
theorem tupLe_eq_false_of_tupLt {a b : List Int}
    (h : tupLt a b = true) : tupLe b a = false := by
  have hne : b ≠ a := by
    intro e; subst e; rw [tupLt_irrefl] at h; exact Bool.false_ne_true h
  simp [tupLe, tupLt_asymm h, hne]

/-! ### Data model -/

/-- `FalconComponent` enum (source lines 141–144). -/
inductive FalconComponent where
  | SENSOR
  | KAC
  | IAR
deriving DecidableEq, Repr, Fintype

/-- The `.value` strings of the enum members. -/
def FalconComponent.val : FalconComponent → String
  | .SENSOR => "Falcon Sensor"
  | .KAC => "Kubernetes Admission Controller"
  | .IAR => "Image Assessment at Runtime"

/-- Position in `list(FalconComponent)`, the declaration order. -/
def FalconComponent.idx : FalconComponent → Nat
  | .SENSOR => 0
  | .KAC => 1
  | .IAR => 2

/-- All enum members, in declaration order. -/
def allComponents : List FalconComponent := [.SENSOR, .KAC, .IAR]

/-- Values of the JSON-like dictionaries the script builds (Helm values
payloads, the persisted config record, `extra_values` overlays). -/
inductive Val where
  | null
  | str (s : String)
  | bool (b : Bool)
  | obj (fields : List (String × Val))

/-- A Python dictionary with string keys, as an ordered association list
(Python dicts preserve insertion order and hold each key once). -/
abbrev Dict := List (String × Val)

def optStr : Option String → Val
  | none => .null
  | some s => .str s

/-- `d[k]` lookup returning `None`-style absence. -/
def getKey (d : Dict) (k : String) : Option Val :=
  match d with
  | [] => none
  | (k', v) :: rest => if k' = k then some v else getKey rest k

/-- `d[k] = v`: replace in place if the key exists (keeping its position),
else append — Python dict assignment semantics. -/
def setKey (d : Dict) (k : String) (v : Val) : Dict :=
  match d with
  | [] => [(k, v)]
  | (k', v') :: rest => if k' = k then (k', v) :: rest else (k', v') :: setKey rest k v

/-- `d.pop(k, None)`'s effect on the dictionary. -/
def popKey (d : Dict) (k : String) : Dict :=
  d.filter (fun kv => kv.1 ≠ k)

/-- `d.update(e)`: shallow merge, last write wins, existing keys keep
their positions, new keys appended in `e`'s order. -/
def updateDict (d e : Dict) : Dict :=
  e.foldl (fun d kv => setKey d kv.1 kv.2) d

/-- `d[k1][k2] = v` when `d[k1]` is a dictionary (the only shape the
script ever indexes into). -/
def setNested (d : Dict) (k1 k2 : String) (v : Val) : Dict :=
  d.map (fun kv =>
    if kv.1 = k1 then
      (kv.1, match kv.2 with
             | .obj o => .obj (setKey o k2 v)
             | w => w)
    else kv)

mutual

/-- Does a key occur anywhere in a value (at any nesting depth)? -/
def Val.hasKey (k : String) : Val → Bool
  | .obj fields => hasKeyDict k fields
  | _ => false

/-- Does a key occur anywhere in a dictionary (at any nesting depth)? -/
def hasKeyDict (k : String) : Dict → Bool
  | [] => false
  | (k', v) :: rest => k' = k || Val.hasKey k v || hasKeyDict k rest

end

/-- `Command` dataclass (source lines 147–154). -/
structure Command where
  component : FalconComponent
  description : String
  cmd_list : List String
  is_verification : Bool := false
  capture_output : Bool := true
  can_fail : Bool := false
deriving DecidableEq, Repr

/-- `ComponentConfig` dataclass (source lines 157–169).  The field
`namespace` is a Lean keyword, hence `namespace_`. -/
structure ComponentConfig where
  namespace_ : String
  image_tag : String
  image_repo : String := ""
  backend : Option String := none
  cluster_name : Option String := none
  iar_mode : Option String := none
  iar_runtime : Option String := none
  extra_values : Dict := []

/-- `DeploymentConfig` dataclass (source lines 172–181). -/
structure DeploymentConfig where
  cid : String
  client_id : String
  client_secret : String
  cloud_region : String
  local_registry : String
  components : List (String × ComponentConfig) := []
  registry_token : String := ""

/-- `dataclasses.asdict` on a `ComponentConfig`: field order is the
declaration order. -/
def asdictComponentConfig (c : ComponentConfig) : Val :=
  .obj [("namespace", .str c.namespace_),
        ("image_tag", .str c.image_tag),
        ("image_repo", .str c.image_repo),
        ("backend", optStr c.backend),
        ("cluster_name", optStr c.cluster_name),
        ("iar_mode", optStr c.iar_mode),
        ("iar_runtime", optStr c.iar_runtime),
        ("extra_values", .obj c.extra_values)]

/-- `dataclasses.asdict` on a `DeploymentConfig`. -/
def asdictDeploymentConfig (c : DeploymentConfig) : Dict :=
  [("cid", .str c.cid),
   ("client_id", .str c.client_id),
   ("client_secret", .str c.client_secret),
   ("cloud_region", .str c.cloud_region),
   ("local_registry", .str c.local_registry),
   ("components", .obj (c.components.map (fun kv => (kv.1, asdictComponentConfig kv.2)))),
   ("registry_token", .str c.registry_token)]

/-- `save_config_to_file` (source lines 655–670): the dictionary written
as JSON.  The secret is blanked only when `save_sensitive` is false; the
session-only `registry_token` key is always popped. -/
def save_config_to_file (config : DeploymentConfig) (save_sensitive : Bool := true) : Dict :=
  let d := asdictDeploymentConfig config
  let d := if save_sensitive then d else setKey d "client_secret" (.str "")
  popKey d "registry_token"

/-! ### Component strategies (source lines 184–398)

The strategy classes carry no state; each method becomes a function on
`FalconComponent`. -/

/-- `ComponentStrategy.release_name` (source lines 201–208). -/
def release_name : FalconComponent → String
  | .SENSOR => "falcon-sensor"
  | .KAC => "falcon-kac"
  | .IAR => "falcon-imageanalyzer"

/-- `ComponentStrategy.image_name` (source lines 210–213). -/
def image_name (c : FalconComponent) : String := release_name c

/-- `chart_name`: Sensor/KAC use `crowdstrike/{release_name}`; IAR's chart
is `crowdstrike/falcon-image-analyzer` (source lines 291, 332, 354). -/
def chart_name : FalconComponent → String
  | .SENSOR => "crowdstrike/falcon-sensor"
  | .KAC => "crowdstrike/falcon-kac"
  | .IAR => "crowdstrike/falcon-image-analyzer"

/-- `get_workload_type` per strategy (source lines 294, 335, 358–359):
Sensor is always a daemonset, KAC a deployment, IAR a daemonset exactly in
`'socket'` mode and a deployment otherwise. -/
def get_workload_type (c : FalconComponent) (cfg : ComponentConfig) : String :=
  match c with
  | .SENSOR => "daemonset"
  | .KAC => "deployment"
  | .IAR => if cfg.iar_mode = some "socket" then "daemonset" else "deployment"

/-- `get_pre_install_commands` (source lines 310–316 and 385–391; the KAC
strategy inherits the empty base implementation, line 236–238). -/
def get_pre_install_commands (c : FalconComponent) (cfg : ComponentConfig) : List Command :=
  match c with
  | .KAC => []
  | _ =>
    [{ component := c, description := "Create namespace",
       cmd_list := ["kubectl", "create", "namespace", cfg.namespace_],
       capture_output := false, can_fail := true },
     { component := c, description := "Label namespace (enforce)",
       cmd_list := ["kubectl", "label", "ns", "--overwrite", cfg.namespace_,
                    "pod-security.kubernetes.io/enforce=privileged"],
       capture_output := false },
     { component := c, description := "Label namespace (audit)",
       cmd_list := ["kubectl", "label", "ns", "--overwrite", cfg.namespace_,
                    "pod-security.kubernetes.io/audit=privileged"],
       capture_output := false },
     { component := c, description := "Label namespace (warn)",
       cmd_list := ["kubectl", "label", "ns", "--overwrite", cfg.namespace_,
                    "pod-security.kubernetes.io/warn=privileged"],
       capture_output := false }]

/-- `get_helm_command` (source lines 240–249). -/
def get_helm_command (c : FalconComponent) (cfg : ComponentConfig) (out_path : String) : Command :=
  { component := c,
    description := "Deploy " ++ c.val ++ " with Helm",
    cmd_list := ["helm", "upgrade", "--install", release_name c, chart_name c,
                 "-n", cfg.namespace_, "--create-namespace", "-f", out_path],
    capture_output := false }

/-- `get_verification_commands` (source lines 251–269): a rollout wait for
the workload, then a log tail. -/
def get_verification_commands (c : FalconComponent) (cfg : ComponentConfig) : List Command :=
  [{ component := c,
     description := "Wait for " ++ get_workload_type c cfg ++ " to be ready",
     cmd_list := ["kubectl", "rollout", "status",
                  get_workload_type c cfg ++ "/" ++ release_name c,
                  "-n", cfg.namespace_, "--timeout=120s"],
     is_verification := true, capture_output := false },
   { component := c,
     description := "Check container logs",
     cmd_list := ["kubectl", "logs", "-n=" ++ cfg.namespace_, "-l",
                  "app.kubernetes.io/name=" ++ release_name c, "--tail=50"],
     is_verification := true }]

/-- `IARStrategy.to_values_dict` (source lines 361–383) up to just before
the final `values.update(cfg.extra_values)`: base payload, then
conditional `clientSecret`, the mode-dependent workload enable flags and
`agentRuntime`, and the optional pull token. -/
def IAR_values_core (cfg : ComponentConfig) (parent : DeploymentConfig)
    (no_sensitive : Bool) : Dict :=
  let values : Dict :=
    [("image", .obj [("repository", .str cfg.image_repo), ("tag", .str cfg.image_tag),
                     ("pullPolicy", .str "Always")]),
     ("crowdstrikeConfig", .obj [("cid", .str parent.cid),
                                 ("clientID", .str parent.client_id),
                                 ("agentRegion", .str parent.cloud_region),
                                 ("clusterName", optStr cfg.cluster_name)])]
  let values := if no_sensitive then values
    else setNested values "crowdstrikeConfig" "clientSecret" (.str parent.client_secret)
  let values :=
    if cfg.iar_mode = some "watcher" then
      setKey (setKey values "deployment" (.obj [("enabled", .bool true)]))
        "daemonset" (.obj [("enabled", .bool false)])
    else if cfg.iar_mode = some "socket" then
      setNested
        (setKey (setKey values "deployment" (.obj [("enabled", .bool false)]))
          "daemonset" (.obj [("enabled", .bool true)]))
        "crowdstrikeConfig" "agentRuntime" (optStr cfg.iar_runtime)
    else values
  if parent.registry_token ≠ "" then
    setNested values "image" "registryConfigJSON" (.str parent.registry_token)
  else values

/-- `IARStrategy.to_values_dict` (source lines 361–383): the core payload
with the shallow `extra_values` overlay applied last. -/
def IAR_to_values_dict (cfg : ComponentConfig) (parent : DeploymentConfig)
    (no_sensitive : Bool) : Dict :=
  updateDict (IAR_values_core cfg parent no_sensitive) cfg.extra_values

/-! ### Latest-tag resolution (source lines 561–582) -/

/-- The sort relation of `sorted(candidates, key=version_to_tuple,
reverse=True)`: a tag precedes another when its version tuple is at least
as large. -/
def tagGe (a b : String) : Prop :=
  tupLe (version_to_tuple b) (version_to_tuple a) = true

instance : DecidableRel tagGe := fun a b => by unfold tagGe; infer_instance

instance : IsTotal String tagGe :=
  ⟨fun a b => tupLe_total (version_to_tuple b) (version_to_tuple a)⟩

instance : IsTrans String tagGe :=
  ⟨fun _ _ _ h1 h2 => tupLe_trans h2 h1⟩

/-- Does a tag start with a digit (`t[0].isdigit()`)?  Python raises
`IndexError` on the empty string; callers guard that case separately. -/
def firstIsDigit (t : String) : Bool :=
  match t.toList with
  | [] => false
  | c :: _ => c.isDigit

/-- The pure core of `get_latest_image_tag` (source lines 561–582), as a
function of the tag list the registry returned.  The comprehension
evaluates `t[0]` for every tag other than the literal `"latest"`, so any
empty tag raises `IndexError`, which the enclosing handler turns into
`None` — even when versioned candidates exist.  Otherwise: drop
`"latest"` and tags not starting with a digit, stable-sort descending by
`version_to_tuple`, and return the first, or `None` if none remain. -/
def get_latest_image_tag (tags : List String) : Option String :=
  if tags.any (fun t => t ≠ "latest" && t.toList.isEmpty) then none
  else
    let versioned := List.insertionSort tagGe
      (tags.filter (fun t => t ≠ "latest" && firstIsDigit t))
    versioned.head?

/-! ### Per-component planning (the loop body of `main`, source lines 879–924)

The collaborators `main` consults for one component are bundled into
`ComponentEnv`: the stored `ComponentConfig` (if any), whether a Helm
release already exists, the installed tag reported by `helm get values`,
the registry's tag list, and the answer to the per-component upgrade
prompt. -/

structure ComponentEnv where
  comp_cfg : Option ComponentConfig
  is_new_install : Bool
  installed_tag : Option String
  available_tags : List String
  upgrade_confirm : Bool

/-- How `main`'s loop leaves one component: skipped for a missing config
(line 884–886), skipped because `"latest"` failed to resolve (896–898),
skipped as already current (903–905), skipped on a declined upgrade prompt
(906–907), or planned with its command sequence (920–924). -/
inductive CompOutcome where
  | noConfig
  | unresolvedLatest
  | alreadyCurrent
  | upgradeDeclined
  | planned (cmds : List Command)

def CompOutcome.commands : CompOutcome → List Command
  | .planned cmds => cmds
  | _ => []

/-- Target-tag resolution (source lines 890–898): a concrete tag is used
unchanged; the `"latest"` sentinel is resolved against the registry. -/
def resolve_target (comp_cfg : ComponentConfig) (env : ComponentEnv) : Option String :=
  if comp_cfg.image_tag = "latest" then get_latest_image_tag env.available_tags
  else some comp_cfg.image_tag

/-- Python truthiness of `installed_tag` (`None` and `""` are falsy). -/
def truthy : Option String → Bool
  | none => false
  | some s => !s.toList.isEmpty

/-- One iteration of `main`'s component loop (source lines 879–924),
producing the component's outcome and, when planned, its commands:
pre-install steps (new install only), the Helm apply, then verification.
`download_and_push_image` (source lines 599–636) returns
`(f"{local_registry}/{image_name}", image_tag)`, reflected in the
`image_repo` update. -/
def process_component (cfg : DeploymentConfig) (config_dir : String)
    (comp : FalconComponent) (env : ComponentEnv) : CompOutcome :=
  match env.comp_cfg with
  | none => .noConfig
  | some comp_cfg =>
    match resolve_target comp_cfg env with
    | none => .unresolvedLatest
    | some target =>
      if !env.is_new_install &&
         (truthy env.installed_tag &&
          (match env.installed_tag with
           | some s => tupLe (version_to_tuple target) (version_to_tuple s)
           | none => false)) then
        .alreadyCurrent
      else if !env.is_new_install && !env.upgrade_confirm then
        .upgradeDeclined
      else
        let comp_cfg := { comp_cfg with
                          image_tag := target,
                          image_repo := cfg.local_registry ++ "/" ++ image_name comp }
        let out_path := config_dir ++ "/" ++ release_name comp ++ "-values.yml"
        .planned ((if env.is_new_install then get_pre_install_commands comp comp_cfg else [])
          ++ [get_helm_command comp comp_cfg out_path]
          ++ get_verification_commands comp comp_cfg)

/-- The command list `main` accumulates over the selected components, in
selection order (source lines 876–924). -/
def buildPlan (cfg : DeploymentConfig) (config_dir : String)
    (selected : List FalconComponent) (envf : FalconComponent → ComponentEnv) : List Command :=
  match selected with
  | [] => []
  | comp :: rest =>
    (process_component cfg config_dir comp (envf comp)).commands
      ++ buildPlan cfg config_dir rest envf

/-- Insert a key into a first-occurrence-ordered key list (models Python
dict/set insertion order). -/
def addKey (ks : List FalconComponent) (k : FalconComponent) : List FalconComponent :=
  if k ∈ ks then ks else ks ++ [k]

/-- Drop duplicates keeping first occurrences (`list(set(l))` up to set
iteration order; the callers below sort by a duplicate-free key
immediately afterwards, making the order canonical). -/
def dedupFirst (l : List FalconComponent) : List FalconComponent :=
  l.foldl addKey []

/-- The sort key order of `choose_components`: enum declaration index. -/
def compLe (a b : FalconComponent) : Prop := a.idx ≤ b.idx

instance : DecidableRel compLe := fun a b => by unfold compLe; infer_instance

instance : IsTotal FalconComponent compLe := ⟨by decide⟩

instance : IsTrans FalconComponent compLe := ⟨by decide⟩

instance : IsAntisymm FalconComponent compLe := ⟨by decide⟩

/-- The normalization `choose_components` applies to an interactive
selection (source line 778): `sorted(list(set(sel)),
key=lambda c: list(FalconComponent).index(c))`.  A CLI `--component`
selection (source line 825) bypasses this. -/
def normalizeSelection (l : List FalconComponent) : List FalconComponent :=
  List.insertionSort compLe (dedupFirst l)

/-! ### The executor `execute_commands_wizard` (source lines 933–1039)

External processes are an oracle `Command → ExecOutcome`; the whole-plan
confirmation answer is a boolean input. -/

/-- Result of handing a command to the system: the process ran and exited,
or its executable was not found (`FileNotFoundError`). -/
inductive ExecOutcome where
  | exited (code : Int)
  | notFound
deriving DecidableEq, Repr

/-- Why a confirmed run stopped early: an intolerant deployment step's
non-zero exit (source lines 993–997) or a missing executable (998–1001).
The two are reported differently and `notFound` carries no exit code. -/
inductive AbortInfo where
  | cmdFailed (cmd : Command) (code : Int)
  | cmdNotFound (cmd : Command)
deriving DecidableEq, Repr

/-- What a run of `execute_commands_wizard` did: every command handed to
the process runner in order, the manual command list printed when the plan
was declined, the abort (if any), and each fully-deployed component's
verification verdict (`all_verifications_passed`, source lines
1009–1039). -/
structure ExecReport where
  runnerCalls : List Command
  manualCommands : Option (List String)
  abort : Option AbortInfo
  verifyResults : List (FalconComponent × Bool)

/-- `' '.join(cmd.cmd_list)` (source line 952). -/
def cmdStr (c : Command) : String := String.intercalate " " c.cmd_list

/-- First-occurrence key order of the `grouped_commands` dict (source
lines 940–944). -/
def groupKeys (l : List Command) : List FalconComponent :=
  l.foldl (fun ks c => addKey ks c.component) []

/-- `grouped_commands` (source lines 940–944): insertion-ordered keys,
each holding its commands in original order. -/
def groupByComponent (l : List Command) : List (FalconComponent × List Command) :=
  (groupKeys l).map (fun k => (k, l.filter (fun c => c.component == k)))

/-- The deployment loop over one group's non-verification steps (source
lines 980–1002): a non-zero exit of a tolerant (`can_fail`) step warns and
continues, an intolerant one aborts, a missing executable aborts.  Returns
the commands handed to the runner and the abort, if any. -/
def runDeploy (runner : Command → ExecOutcome) :
    List Command → List Command × Option AbortInfo
  | [] => ([], none)
  | c :: rest =>
    match runner c with
    | .notFound => ([c], some (.cmdNotFound c))
    | .exited code =>
      if code ≠ 0 && !c.can_fail then ([c], some (.cmdFailed c code))
      else
        let (calls, ab) := runDeploy runner rest
        (c :: calls, ab)

/-- The verification loop (source lines 1009–1039): every step runs — the
exception handlers record the failure and the loop continues — and the
component passes iff every step exited zero. -/
def runVerify (runner : Command → ExecOutcome) (steps : List Command) : Bool :=
  steps.all (fun c =>
    match runner c with
    | .exited 0 => true
    | _ => false)

/-- The confirmed-path loop over component groups (source lines 972–1039):
deployment steps strictly in order; an abort returns immediately, skipping
this group's verification and every later group; otherwise all the group's
verification steps run and the next group starts. -/
def runGroups (runner : Command → ExecOutcome) :
    List (FalconComponent × List Command) → ExecReport
  | [] => ⟨[], none, none, []⟩
  | (k, cmds) :: rest =>
    let dep := cmds.filter (fun c => !c.is_verification)
    let ver := cmds.filter (fun c => c.is_verification)
    match runDeploy runner dep with
    | (dcalls, some a) => ⟨dcalls, none, some a, []⟩
    | (dcalls, none) =>
      let passed := runVerify runner ver
      let restR := runGroups runner rest
      ⟨dcalls ++ ver ++ restR.runnerCalls, none, restR.abort,
       (k, passed) :: restR.verifyResults⟩

/-- `execute_commands_wizard` (source lines 933–1039).  An empty plan
reports nothing to do without prompting.  Otherwise the grouped plan is
displayed — collecting the deployment-only command strings — and a single
confirmation is requested: declined means export mode (print the manual
list, best-effort clipboard copy, return without running anything);
confirmed means executing group by group. -/
def execute_commands_wizard (runner : Command → ExecOutcome) (confirmed : Bool)
    (commands : List Command) : ExecReport :=
  if commands.isEmpty then ⟨[], none, none, []⟩
  else
    let groups := groupByComponent commands
    let manual := (((groups.map Prod.snd).flatten.filter
      (fun c => !c.is_verification)).map cmdStr)
    if !confirmed then ⟨[], some manual, none, []⟩
    else runGroups runner groups

/-! ### Dictionary lemmas -/

theorem getKey_popKey_self (d : Dict) (k : String) : getKey (popKey d k) k = none := by
  induction d with
  | nil => rfl
  | cons kv rest ih =>
    by_cases h : kv.1 = k
    · simpa [popKey, List.filter, h] using ih
    · simpa [popKey, List.filter, h, getKey] using ih

theorem getKey_setKey_ne (d : Dict) {k' k : String} (v : Val) (h : k' ≠ k) :
    getKey (setKey d k' v) k = getKey d k := by
  induction d with
  | nil => simp [setKey, getKey, h]
  | cons kv rest ih =>
    by_cases h1 : kv.1 = k'
    · simp [setKey, getKey, h1, h]
    · simp only [setKey, h1, if_false, getKey]
      by_cases h2 : kv.1 = k <;> simp [h2, ih]

theorem getKey_updateDict_of_ne (d : Dict) {e : Dict} {k : String}
    (h : ∀ kv ∈ e, kv.1 ≠ k) : getKey (updateDict d e) k = getKey d k := by
  induction e generalizing d with
  | nil => rfl
  | cons kv rest ih =>
    have := ih (d := setKey d kv.1 kv.2) (fun kv' h' => h kv' (List.mem_cons_of_mem _ h'))
    rw [updateDict] at this ⊢
    simp only [List.foldl_cons]
    rw [this, getKey_setKey_ne d kv.2 (h kv (List.mem_cons_self _ _))]

/-! ### Claim C1 — what `save` persists -/

/-- A concrete configuration exercising `save_config_to_file`. -/
def cfgC1 : DeploymentConfig :=
  { cid := "ABCDEF-12", client_id := "client-id", client_secret := "s3cret",
    cloud_region := "eu-1", local_registry := "localhost:5000",
    components := [], registry_token := "pull-token" }

/-- C1, counterexample.  The claim says the saved record never contains
the client secret, for every value of the `save_sensitive` flag.  But with
`save_sensitive := true` (the default, used whenever `--no-sensitive` is
not given) the record keeps the secret verbatim. -/
theorem c1_counterexample :
    getKey (save_config_to_file cfgC1 true) "client_secret" = some (.str "s3cret") := rfl

/-- C1, amended.  The ephemeral registry pull-token is never written —
its key is popped from the record for every configuration and flag value —
and the client secret is blanked exactly when `save_sensitive` is false;
with `save_sensitive` true the secret is written. -/
theorem c1_save_semantics (config : DeploymentConfig) (save_sensitive : Bool) :
    getKey (save_config_to_file config save_sensitive) "registry_token" = none
    ∧ getKey (save_config_to_file config false) "client_secret" = some (.str "")
    ∧ getKey (save_config_to_file config true) "client_secret"
        = some (.str config.client_secret) := by
  refine ⟨?_, rfl, rfl⟩
  cases save_sensitive <;> exact getKey_popKey_self _ _

/-! ### Claim C4 — resolving the `"latest"` sentinel -/

theorem insertionSort_head_max {l : List String} {t : String}
    (h : (List.insertionSort tagGe l).head? = some t) :
    t ∈ l ∧ ∀ u ∈ l, tupLe (version_to_tuple u) (version_to_tuple t) = true := by
  have hperm := List.perm_insertionSort tagGe l
  have hsort := List.sorted_insertionSort tagGe l
  rcases hs : List.insertionSort tagGe l with _ | ⟨t', ts⟩
  · rw [hs] at h; simp at h
  · rw [hs] at h hperm hsort
    simp only [List.head?_cons, Option.some.injEq] at h
    refine ⟨h ▸ hperm.mem_iff.mp (List.mem_cons_self _ _), fun u hu => ?_⟩
    rcases List.mem_cons.mp (hperm.mem_iff.mpr hu : u ∈ t' :: ts) with h' | h'
    · rw [h', ← h]; exact tupLe_refl _
    · rw [← h]; exact List.rel_of_sorted_cons hsort u h'

/-- The candidate filter of `get_latest_image_tag`. -/
def latestCandidates (tags : List String) : List String :=
  tags.filter (fun t => t ≠ "latest" && firstIsDigit t)

theorem get_latest_image_tag_eq (tags : List String)
    (hne : ∀ t ∈ tags, t.toList ≠ []) :
    get_latest_image_tag tags
      = (List.insertionSort tagGe (latestCandidates tags)).head? := by
  rw [get_latest_image_tag]
  have : tags.any (fun t => t ≠ "latest" && t.toList.isEmpty) = false := by
    rw [List.any_eq_false]
    intro t ht
    simp [List.isEmpty_iff]
    exact fun _ => hne t ht
  rw [this]
  rfl

/-- C4, counterexample.  The claim says tags not starting with a digit are
merely discarded and a best candidate is still returned.  But the list
comprehension evaluates `t[0]` on every non-`"latest"` tag, so an empty
tag raises `IndexError`, which the handler converts to `None` — resolution
fails although `"7.0.0"` is a perfectly good candidate. -/
theorem c4_counterexample :
    get_latest_image_tag ["7.0.0", ""] = none
    ∧ "7.0.0" ∈ latestCandidates ["7.0.0", ""] := by
  exact ⟨rfl, by decide⟩

/-- C4, amended.  For ASCII tag lists (the domain on which the model of
`int()` and `isdigit()` is exact; every tag a registry accepts is ASCII),
provided no available tag is the empty string (an empty tag aborts
resolution with no resolved version even when candidates remain): the
candidates are exactly the tags that are not the literal `"latest"` and
start with a digit; if none remain, resolution yields no version (the
caller then skips the component and prompts for a manual tag); otherwise
it returns a candidate whose parsed version tuple is maximal among all
candidates — the first of the descending sort. -/
theorem c4_latest_resolution (tags : List String)
    (_hascii : ∀ t ∈ tags, asciiOnly t = true)
    (hne : ∀ t ∈ tags, t.toList ≠ []) :
    (∀ t, t ∈ latestCandidates tags ↔
        (t ∈ tags ∧ t ≠ "latest" ∧ firstIsDigit t = true))
    ∧ (latestCandidates tags = [] → get_latest_image_tag tags = none)
    ∧ (latestCandidates tags ≠ [] →
        ∃ t, get_latest_image_tag tags = some t
          ∧ t ∈ latestCandidates tags
          ∧ ∀ u ∈ latestCandidates tags,
              tupLe (version_to_tuple u) (version_to_tuple t) = true)
    ∧ (∀ (cfg : DeploymentConfig) (cd : String) (comp : FalconComponent)
          (env : ComponentEnv) (cc : ComponentConfig),
        env.comp_cfg = some cc → cc.image_tag = "latest" →
        env.available_tags = tags → latestCandidates tags = [] →
        process_component cfg cd comp env = .unresolvedLatest) := by
  have hnone : latestCandidates tags = [] → get_latest_image_tag tags = none := by
    intro h0
    rw [get_latest_image_tag_eq tags hne, h0]
    rfl
  refine ⟨fun t => ?_, hnone, fun h0 => ?_, fun cfg cd comp env cc hcc htag htags h0 => ?_⟩
  · rw [latestCandidates, List.mem_filter, Bool.and_eq_true, decide_eq_true_eq]
  · rw [get_latest_image_tag_eq tags hne]
    have hlen : (List.insertionSort tagGe (latestCandidates tags)).length
        = (latestCandidates tags).length :=
      (List.perm_insertionSort tagGe _).length_eq
    rcases hs : List.insertionSort tagGe (latestCandidates tags) with _ | ⟨t, ts⟩
    · rw [hs] at hlen
      exact absurd (List.length_eq_zero.mp hlen.symm) h0
    · have hh : (List.insertionSort tagGe (latestCandidates tags)).head? = some t := by
        rw [hs]; rfl
      obtain ⟨hmem, hmax⟩ := insertionSort_head_max hh
      exact ⟨t, rfl, hmem, hmax⟩
  · rw [process_component, hcc]
    dsimp only
    rw [resolve_target, htag, if_pos rfl, htags, hnone h0]

/-- C4, witness: a concrete resolution.  `"latest"` and `"abc"` are
discarded, `"7.10.0"` beats `"7.2.0-rc1"` under tuple order. -/
theorem c4_witness :
    (∀ t, t ∈ latestCandidates ["latest", "7.2.0-rc1", "abc", "7.10.0"] ↔
        (t ∈ ["latest", "7.2.0-rc1", "abc", "7.10.0"] ∧ t ≠ "latest" ∧ firstIsDigit t = true))
    ∧ (latestCandidates ["latest", "7.2.0-rc1", "abc", "7.10.0"] = [] →
        get_latest_image_tag ["latest", "7.2.0-rc1", "abc", "7.10.0"] = none)
    ∧ (latestCandidates ["latest", "7.2.0-rc1", "abc", "7.10.0"] ≠ [] →
        ∃ t, get_latest_image_tag ["latest", "7.2.0-rc1", "abc", "7.10.0"] = some t
          ∧ t ∈ latestCandidates ["latest", "7.2.0-rc1", "abc", "7.10.0"]
          ∧ ∀ u ∈ latestCandidates ["latest", "7.2.0-rc1", "abc", "7.10.0"],
              tupLe (version_to_tuple u) (version_to_tuple t) = true)
    ∧ (∀ (cfg : DeploymentConfig) (cd : String) (comp : FalconComponent)
          (env : ComponentEnv) (cc : ComponentConfig),
        env.comp_cfg = some cc → cc.image_tag = "latest" →
        env.available_tags = ["latest", "7.2.0-rc1", "abc", "7.10.0"] →
        latestCandidates ["latest", "7.2.0-rc1", "abc", "7.10.0"] = [] →
        process_component cfg cd comp env = .unresolvedLatest) :=
  c4_latest_resolution ["latest", "7.2.0-rc1", "abc", "7.10.0"] (by decide) (by decide)

/-! ### Claims C5 and C10 — the upgrade path in `main`'s loop -/

theorem truthy_some_of_ne {s : String} (h : s ≠ "") : truthy (some s) = true := by
  rw [truthy]
  cases he : s.toList.isEmpty
  · rfl
  · exact absurd (String.ext (by simpa [List.isEmpty_iff] using he)) h

/-- C5.  On the upgrade path (a release exists, `is_new_install` false)
with a known (non-empty) installed tag, a resolved target whose version
tuple is `≤` the installed one — equal or lower — makes `main` report the
component as already current and queue nothing for it.  Both tag strings
are assumed ASCII, the domain on which `version_to_tuple` models the
source's parsing exactly. -/
theorem c5_already_current (cfg : DeploymentConfig) (config_dir : String)
    (comp : FalconComponent) (env : ComponentEnv) (cc : ComponentConfig)
    (target s : String)
    (_htA : asciiOnly target = true)
    (_hsA : asciiOnly s = true)
    (hcfg : env.comp_cfg = some cc)
    (hres : resolve_target cc env = some target)
    (hnew : env.is_new_install = false)
    (hinst : env.installed_tag = some s)
    (hknown : s ≠ "")
    (hle : tupLe (version_to_tuple target) (version_to_tuple s) = true) :
    process_component cfg config_dir comp env = .alreadyCurrent
    ∧ (process_component cfg config_dir comp env).commands = [] := by
  have h : process_component cfg config_dir comp env = .alreadyCurrent := by
    rw [process_component, hcfg]
    dsimp only
    rw [hres]
    simp [hnew, hinst, truthy_some_of_ne hknown, hle]
  exact ⟨h, by rw [h]; rfl⟩

/-- A concrete already-installed component environment used by the C5 and
C10 witnesses: release present, installed version `7.2.0`. -/
def envInstalled (tag installed : String) (confirm : Bool) : ComponentEnv :=
  { comp_cfg := some { namespace_ := "falcon-system", image_tag := tag },
    is_new_install := false,
    installed_tag := some installed,
    available_tags := [],
    upgrade_confirm := confirm }

def cfgPlain : DeploymentConfig :=
  { cid := "C", client_id := "I", client_secret := "S", cloud_region := "eu-1",
    local_registry := "localhost:5000" }

/-- C5, witness: target `7.2.0` against installed `7.2.0` (equal) and
target `7.1.9` against installed `7.2.0` (downgrade) are both skipped. -/
theorem c5_witness :
    (process_component cfgPlain "/cfg" .SENSOR (envInstalled "7.2.0" "7.2.0" true)
        = .alreadyCurrent
      ∧ (process_component cfgPlain "/cfg" .SENSOR
          (envInstalled "7.2.0" "7.2.0" true)).commands = [])
    ∧ (process_component cfgPlain "/cfg" .SENSOR (envInstalled "7.1.9" "7.2.0" true)
        = .alreadyCurrent
      ∧ (process_component cfgPlain "/cfg" .SENSOR
          (envInstalled "7.1.9" "7.2.0" true)).commands = []) :=
  ⟨c5_already_current cfgPlain "/cfg" .SENSOR _ _ "7.2.0" "7.2.0" (by decide) (by decide)
      rfl rfl rfl rfl (by decide) (by decide),
   c5_already_current cfgPlain "/cfg" .SENSOR _ _ "7.1.9" "7.2.0" (by decide) (by decide)
      rfl rfl rfl rfl (by decide) (by decide)⟩

/-- C10.  On the upgrade path, once the resolved target is strictly newer
than the known installed version, `main` asks one more per-component
confirmation (`Upgrade from X to Y?`, source line 906); answering no makes
that component contribute no operations while the remaining selected
components are still processed.  Both tag strings are assumed ASCII, the
domain on which `version_to_tuple` models the source's parsing exactly. -/
theorem c10_upgrade_prompt_gate (cfg : DeploymentConfig) (config_dir : String)
    (comp : FalconComponent) (env : ComponentEnv) (cc : ComponentConfig)
    (target s : String) (rest : List FalconComponent)
    (envf : FalconComponent → ComponentEnv)
    (_htA : asciiOnly target = true)
    (_hsA : asciiOnly s = true)
    (hcfg : env.comp_cfg = some cc)
    (hres : resolve_target cc env = some target)
    (hnew : env.is_new_install = false)
    (hinst : env.installed_tag = some s)
    (hgt : tupLt (version_to_tuple s) (version_to_tuple target) = true)
    (hdecl : env.upgrade_confirm = false)
    (henv : envf comp = env) :
    process_component cfg config_dir comp env = .upgradeDeclined
    ∧ buildPlan cfg config_dir (comp :: rest) envf = buildPlan cfg config_dir rest envf := by
  have h : process_component cfg config_dir comp env = .upgradeDeclined := by
    rw [process_component, hcfg]
    dsimp only
    rw [hres]
    simp [hnew, hinst, hdecl, tupLe_eq_false_of_tupLt hgt]
  refine ⟨h, ?_⟩
  rw [buildPlan, henv, h]
  rfl

/-- C10, witness: installed `7.2.0`, resolved target `7.3.0`, prompt
declined — the Sensor contributes nothing and the remaining components
(here the KAC) are still processed. -/
theorem c10_witness :
    process_component cfgPlain "/cfg" .SENSOR (envInstalled "7.3.0" "7.2.0" false)
      = .upgradeDeclined
    ∧ buildPlan cfgPlain "/cfg" [.SENSOR, .KAC]
        (fun _ => envInstalled "7.3.0" "7.2.0" false)
      = buildPlan cfgPlain "/cfg" [.KAC]
        (fun _ => envInstalled "7.3.0" "7.2.0" false) :=
  c10_upgrade_prompt_gate cfgPlain "/cfg" .SENSOR _ _ "7.3.0" "7.2.0" [.KAC]
    (fun _ => envInstalled "7.3.0" "7.2.0" false)
    (by decide) (by decide) rfl rfl rfl rfl (by decide) rfl rfl

/-! ### Claim C6 — plan ordering -/

theorem mem_addKey {ks : List FalconComponent} {a k : FalconComponent} :
    k ∈ addKey ks a ↔ k ∈ ks ∨ k = a := by
  rw [addKey]
  split_ifs with h
  · exact ⟨Or.inl, fun h' => h'.elim id (fun e => e ▸ h)⟩
  · simp

theorem nodup_addKey {ks : List FalconComponent} (a : FalconComponent)
    (h : ks.Nodup) : (addKey ks a).Nodup := by
  rw [addKey]
  split_ifs with hm
  · exact h
  · simpa [List.nodup_append] using ⟨h, hm⟩

theorem mem_foldl_addKey :
    ∀ (l : List FalconComponent) (ks : List FalconComponent) (k : FalconComponent),
      k ∈ l.foldl addKey ks ↔ k ∈ ks ∨ k ∈ l
  | [], ks, k => by simp
  | a :: l, ks, k => by
    rw [List.foldl_cons, mem_foldl_addKey l, mem_addKey, List.mem_cons]
    tauto

theorem nodup_foldl_addKey :
    ∀ (l : List FalconComponent) (ks : List FalconComponent),
      ks.Nodup → (l.foldl addKey ks).Nodup
  | [], _, h => h
  | a :: l, ks, h => nodup_foldl_addKey l (addKey ks a) (nodup_addKey a h)

theorem mem_dedupFirst {l : List FalconComponent} {k : FalconComponent} :
    k ∈ dedupFirst l ↔ k ∈ l := by
  rw [dedupFirst, mem_foldl_addKey]
  simp

theorem nodup_dedupFirst (l : List FalconComponent) : (dedupFirst l).Nodup :=
  nodup_foldl_addKey l [] List.nodup_nil

/-- The normalized selection is canonical: the enum order filtered by
membership — independent of the order (and multiplicity) of the raw
selection. -/
theorem normalizeSelection_eq_filter (l : List FalconComponent) :
    normalizeSelection l = allComponents.filter (fun c => decide (c ∈ l)) := by
  have hperm1 : List.Perm (normalizeSelection l) (dedupFirst l) :=
    List.perm_insertionSort _ _
  have hsort1 : List.Sorted compLe (normalizeSelection l) :=
    List.sorted_insertionSort _ _
  have hRnodup : (allComponents.filter (fun c => decide (c ∈ l))).Nodup :=
    List.Nodup.filter _ (by decide)
  have hRsort : List.Sorted compLe (allComponents.filter (fun c => decide (c ∈ l))) :=
    List.Pairwise.filter _ (by decide)
  have hperm2 : List.Perm (dedupFirst l) (allComponents.filter (fun c => decide (c ∈ l))) := by
    refine (List.perm_ext_iff_of_nodup (nodup_dedupFirst l) hRnodup).2 (fun a => ?_)
    rw [mem_dedupFirst, List.mem_filter]
    have : a ∈ allComponents := by cases a <;> decide
    simp [this]
  exact List.eq_of_perm_of_sorted (hperm1.trans hperm2) hsort1 hRsort

theorem pre_install_component (comp : FalconComponent) (cc : ComponentConfig) :
    ∀ x ∈ get_pre_install_commands comp cc, x.component = comp := by
  cases comp with
  | KAC => intro x hx; simp [get_pre_install_commands] at hx
  | SENSOR =>
    intro x hx
    simp only [get_pre_install_commands, List.mem_cons, List.not_mem_nil, or_false] at hx
    rcases hx with rfl | rfl | rfl | rfl <;> rfl
  | IAR =>
    intro x hx
    simp only [get_pre_install_commands, List.mem_cons, List.not_mem_nil, or_false] at hx
    rcases hx with rfl | rfl | rfl | rfl <;> rfl

theorem verification_component (comp : FalconComponent) (cc : ComponentConfig) :
    ∀ x ∈ get_verification_commands comp cc, x.component = comp := by
  intro x hx
  simp only [get_verification_commands, List.mem_cons, List.not_mem_nil, or_false] at hx
  rcases hx with rfl | rfl <;> rfl

/-- Every command a component's planning step emits is tagged with that
component. -/
theorem commands_component (cfg : DeploymentConfig) (cd : String)
    (comp : FalconComponent) (env : ComponentEnv) :
    ∀ x ∈ (process_component cfg cd comp env).commands, x.component = comp := by
  intro x hx
  rw [process_component] at hx
  rcases henv : env.comp_cfg with _ | cc
  · rw [henv] at hx; simp [CompOutcome.commands] at hx
  · rw [henv] at hx
    dsimp only at hx
    rcases hres : resolve_target cc env with _ | target
    · rw [hres] at hx; simp [CompOutcome.commands] at hx
    · rw [hres] at hx
      dsimp only at hx
      split_ifs at hx
      · simp [CompOutcome.commands] at hx
      · simp [CompOutcome.commands] at hx
      all_goals
        rw [CompOutcome.commands] at hx
        rcases List.mem_append.mp hx with hx' | hx'
        · rcases List.mem_append.mp hx' with hx'' | hx''
          · first
            | exact pre_install_component comp _ x hx''
            | simp at hx''
          · rw [List.mem_singleton] at hx''
            subst hx''
            rfl
        · exact verification_component comp _ x hx'

theorem mem_buildPlan_component (cfg : DeploymentConfig) (cd : String) :
    ∀ (sel : List FalconComponent) (envf : FalconComponent → ComponentEnv) (x : Command),
      x ∈ buildPlan cfg cd sel envf → x.component ∈ sel
  | [], _, x, hx => by simp [buildPlan] at hx
  | a :: l, envf, x, hx => by
    rw [buildPlan] at hx
    rcases List.mem_append.mp hx with h | h
    · rw [commands_component cfg cd a (envf a) x h]
      exact List.mem_cons_self _ _
    · exact List.mem_cons_of_mem _ (mem_buildPlan_component cfg cd l envf x h)

/-- A selection processed in enum-compatible order yields a plan whose
commands are grouped in that order. -/
theorem buildPlan_components_pairwise (cfg : DeploymentConfig) (cd : String)
    (sel : List FalconComponent) (envf : FalconComponent → ComponentEnv)
    (hsel : sel.Pairwise compLe) :
    ((buildPlan cfg cd sel envf).map (·.component)).Pairwise compLe := by
  induction sel with
  | nil => simp [buildPlan]
  | cons a l ih =>
    rw [buildPlan, List.map_append, List.pairwise_append]
    have hblock : ∀ y ∈ ((process_component cfg cd a (envf a)).commands.map (·.component)),
        y = a := by
      intro y hy
      obtain ⟨x, hx, rfl⟩ := List.mem_map.mp hy
      exact commands_component cfg cd a (envf a) x hx
    refine ⟨?_, ih (List.Pairwise.of_cons hsel), ?_⟩
    · apply List.pairwise_of_forall_mem_list
      intro y hy z hz
      rw [hblock y hy, hblock z hz]
      exact Nat.le_refl _
    · intro y hy z hz
      obtain ⟨x, hx, rfl⟩ := List.mem_map.mp hz
      rw [hblock y hy]
      exact List.rel_of_pairwise_cons hsel (mem_buildPlan_component cfg cd l envf x hx)

/-- Environments for a concrete two-component run: both components are
fresh installs with pinned tags. -/
def envfC6 : FalconComponent → ComponentEnv
  | .SENSOR =>
    { comp_cfg := some { namespace_ := "falcon-system", image_tag := "7.2.0",
                         backend := some "bpf" },
      is_new_install := true, installed_tag := none,
      available_tags := [], upgrade_confirm := true }
  | .KAC =>
    { comp_cfg := none, is_new_install := true, installed_tag := none,
      available_tags := [], upgrade_confirm := true }
  | .IAR =>
    { comp_cfg := some { namespace_ := "falcon-imageanalyzer", image_tag := "1.0.0",
                         cluster_name := some "cl", iar_mode := some "watcher" },
      is_new_install := true, installed_tag := none,
      available_tags := [], upgrade_confirm := true }

/-- C6, counterexample.  The claim promises the fixed enumeration order
(Sensor before RuntimeAnalyzer) *however* the selection is supplied.  But
`main` iterates `selected_components` as given, and the CLI path
(`--component iar sensor`, source line 825) performs no normalization: the
plan puts all seven IAR commands before the seven Sensor commands. -/
theorem c6_counterexample :
    (buildPlan cfgPlain "/cfg" [.IAR, .SENSOR] envfC6).map (·.component)
      = List.replicate 7 .IAR ++ List.replicate 7 .SENSOR := by decide

/-- C6, amended.  For a selection normalized by the *interactive* chooser
(`choose_components` sorts the de-duplicated selection by enum index;
a CLI-supplied list is used in the order given): the normalized selection
is the enum order filtered by membership — hence independent of how the
selection was ordered — the resulting plan's commands are grouped in enum
order, components with no configuration or an already-current signal
contribute nothing, and every planned component contributes pre-install
steps (new installs only), then the Helm apply, then verification. -/
theorem c6_plan_order (cfg : DeploymentConfig) (config_dir : String)
    (sel : List FalconComponent) (envf : FalconComponent → ComponentEnv) :
    normalizeSelection sel = allComponents.filter (fun c => decide (c ∈ sel))
    ∧ (∀ sel' : List FalconComponent, (∀ c, c ∈ sel' ↔ c ∈ sel) →
        normalizeSelection sel' = normalizeSelection sel)
    ∧ ((buildPlan cfg config_dir (normalizeSelection sel) envf).map (·.component)).Pairwise compLe
    ∧ (∀ comp, (process_component cfg config_dir comp (envf comp) = .noConfig
          ∨ process_component cfg config_dir comp (envf comp) = .alreadyCurrent)
        → (process_component cfg config_dir comp (envf comp)).commands = [])
    ∧ (∀ comp cmds, process_component cfg config_dir comp (envf comp) = .planned cmds →
        ∃ cc : ComponentConfig,
          cmds = (if (envf comp).is_new_install then get_pre_install_commands comp cc else [])
            ++ [get_helm_command comp cc (config_dir ++ "/" ++ release_name comp ++ "-values.yml")]
            ++ get_verification_commands comp cc) := by
  refine ⟨normalizeSelection_eq_filter sel, fun sel' h => ?_, ?_, fun comp h => ?_, ?_⟩
  · rw [normalizeSelection_eq_filter, normalizeSelection_eq_filter]
    exact List.filter_congr (fun c _ => by simp [h c])
  · exact buildPlan_components_pairwise cfg config_dir _ envf
      (List.sorted_insertionSort _ _)
  · rcases h with h | h <;> rw [h] <;> rfl
  · intro comp cmds h
    rw [process_component] at h
    rcases henv : (envf comp).comp_cfg with _ | cc
    · rw [henv] at h; simp at h
    · rw [henv] at h
      dsimp only at h
      rcases hres : resolve_target cc (envf comp) with _ | target
      · rw [hres] at h; simp at h
      · rw [hres] at h
        dsimp only at h
        split_ifs at h with h1 h2 h3
        · rw [CompOutcome.planned.injEq] at h
          subst h
          refine ⟨{ cc with image_tag := target, image_repo := cfg.local_registry ++ "/" ++ image_name comp }, ?_⟩
          simp [h3, List.append_assoc]
        · rw [CompOutcome.planned.injEq] at h
          subst h
          refine ⟨{ cc with image_tag := target, image_repo := cfg.local_registry ++ "/" ++ image_name comp }, ?_⟩
          simp [h3, List.append_assoc]

/-- C6, witness: the amended statement at a concrete configuration and
selection. -/
theorem c6_witness :
    normalizeSelection [.IAR, .SENSOR]
        = allComponents.filter (fun c => decide (c ∈ [FalconComponent.IAR, .SENSOR]))
    ∧ (∀ sel' : List FalconComponent,
        (∀ c, c ∈ sel' ↔ c ∈ [FalconComponent.IAR, .SENSOR]) →
        normalizeSelection sel' = normalizeSelection [.IAR, .SENSOR])
    ∧ ((buildPlan cfgPlain "/cfg" (normalizeSelection [.IAR, .SENSOR]) envfC6).map
        (·.component)).Pairwise compLe
    ∧ (∀ comp, (process_component cfgPlain "/cfg" comp (envfC6 comp) = .noConfig
          ∨ process_component cfgPlain "/cfg" comp (envfC6 comp) = .alreadyCurrent)
        → (process_component cfgPlain "/cfg" comp (envfC6 comp)).commands = [])
    ∧ (∀ comp cmds, process_component cfgPlain "/cfg" comp (envfC6 comp) = .planned cmds →
        ∃ cc : ComponentConfig,
          cmds = (if (envfC6 comp).is_new_install then get_pre_install_commands comp cc else [])
            ++ [get_helm_command comp cc ("/cfg" ++ "/" ++ release_name comp ++ "-values.yml")]
            ++ get_verification_commands comp cc) :=
  c6_plan_order cfgPlain "/cfg" [.IAR, .SENSOR] envfC6

/-! ### Claim C2 — declining the whole-plan confirmation -/

theorem groupKeys_eq (l : List Command) :
    groupKeys l = dedupFirst (l.map (fun c => c.component)) := by
  rw [groupKeys, dedupFirst, List.foldl_map]

theorem nodup_groupKeys (l : List Command) : (groupKeys l).Nodup := by
  rw [groupKeys_eq]; exact nodup_dedupFirst _

theorem mem_groupKeys {l : List Command} {k : FalconComponent} :
    k ∈ groupKeys l ↔ k ∈ l.map (fun c => c.component) := by
  rw [groupKeys_eq, mem_dedupFirst]

theorem count_filter_component (l : List Command) (a : Command) (k : FalconComponent) :
    (l.filter (fun c => c.component == k)).count a
      = if a.component = k then l.count a else 0 := by
  by_cases h : a.component = k
  · rw [if_pos h]
    exact List.count_filter (by simp [h])
  · rw [if_neg h, List.count_eq_zero]
    intro hmem
    exact h (by simpa using (List.mem_filter.mp hmem).2)

theorem sum_map_ite_count (ks : List FalconComponent) (k0 : FalconComponent) (n : Nat) :
    (ks.map (fun k => if k0 = k then n else 0)).sum = ks.count k0 * n := by
  induction ks with
  | nil => simp
  | cons a ks ih =>
    rw [List.map_cons, List.sum_cons, ih, List.count_cons]
    by_cases h : k0 = a
    · simp only [h, if_pos rfl, beq_self_eq_true, if_true]
      ring
    · simp only [if_neg h, beq_iff_eq, if_neg (fun e : a = k0 => h e.symm)]
      ring

/-- Flattening the component groups gives back the plan's commands, as a
multiset: grouping neither drops nor duplicates a command. -/
theorem flatten_groupByComponent_perm (l : List Command) :
    List.Perm ((groupByComponent l).map Prod.snd).flatten l := by
  rw [List.perm_iff_count]
  intro a
  rw [List.count_flatten, groupByComponent, List.map_map, List.map_map]
  simp only [Function.comp_def]
  have hcong : ∀ k ∈ groupKeys l,
      List.count a (l.filter (fun c => c.component == k))
        = if a.component = k then l.count a else 0 := by
    intro k _
    exact count_filter_component l a k
  rw [List.map_congr_left hcong, sum_map_ite_count]
  by_cases hz : l.count a = 0
  · rw [hz, Nat.mul_zero]
  · have hmem : a ∈ l := by
      by_contra hm
      exact hz (List.count_eq_zero.mpr hm)
    have hk : a.component ∈ groupKeys l :=
      mem_groupKeys.mpr (List.mem_map_of_mem _ hmem)
    rw [List.count_eq_one_of_mem (nodup_groupKeys l) hk, Nat.one_mul]

/-- C2.  For every non-empty plan, declining the single whole-plan
confirmation hands nothing to the process runner, aborts nothing, and
prints a manual command list holding exactly the plan's deployment
(non-verification) command strings — each verification step excluded. -/
theorem c2_declined_export (runner : Command → ExecOutcome) (commands : List Command)
    (h : commands ≠ []) :
    (execute_commands_wizard runner false commands).runnerCalls = []
    ∧ (execute_commands_wizard runner false commands).abort = none
    ∧ ∃ m, (execute_commands_wizard runner false commands).manualCommands = some m
        ∧ List.Perm m ((commands.filter (fun c => !c.is_verification)).map cmdStr) := by
  have hne : commands.isEmpty = false := by
    rcases commands with _ | _
    · exact absurd rfl h
    · rfl
  have hstep : execute_commands_wizard runner false commands
      = ⟨[], some ((((groupByComponent commands).map Prod.snd).flatten.filter
          (fun c => !c.is_verification)).map cmdStr), none, []⟩ := by
    rw [execute_commands_wizard]
    simp [hne]
  rw [hstep]
  exact ⟨rfl, rfl, _, rfl, ((flatten_groupByComponent_perm commands).filter _).map cmdStr⟩

/-- Concrete plan steps for executor witnesses: two Sensor steps (one a
verification), then an IAR deployment step. -/
def stepDeployA : Command :=
  { component := .SENSOR, description := "Create namespace",
    cmd_list := ["kubectl", "create", "namespace", "falcon-system"],
    capture_output := false, can_fail := true }

def stepVerifyA : Command :=
  { component := .SENSOR, description := "Check container logs",
    cmd_list := ["kubectl", "logs", "-n=falcon-system"], is_verification := true }

def stepDeployB : Command :=
  { component := .IAR, description := "Deploy Image Assessment at Runtime with Helm",
    cmd_list := ["helm", "upgrade", "--install", "falcon-imageanalyzer"],
    capture_output := false }

/-- C2, witness: on a concrete three-step plan, declining yields no runner
calls and the manual list `kubectl … / helm …` without the verification
step. -/
theorem c2_witness :
    (execute_commands_wizard (fun _ => .exited 0) false
        [stepDeployA, stepVerifyA, stepDeployB]).runnerCalls = []
    ∧ (execute_commands_wizard (fun _ => .exited 0) false
        [stepDeployA, stepVerifyA, stepDeployB]).abort = none
    ∧ ∃ m, (execute_commands_wizard (fun _ => .exited 0) false
          [stepDeployA, stepVerifyA, stepDeployB]).manualCommands = some m
        ∧ List.Perm m (([stepDeployA, stepVerifyA, stepDeployB].filter
            (fun c => !c.is_verification)).map cmdStr) :=
  c2_declined_export (fun _ => .exited 0) [stepDeployA, stepVerifyA, stepDeployB]
    (List.cons_ne_nil _ _)

/-! ### Claims C3 and C7 — failure semantics of a confirmed run -/

/-- C3.  In a confirmed run: a deployment step exiting non-zero with
`can_fail` set warns and lets the later steps of its component proceed;
without `can_fail` it stops immediately with only the attempted prefix
executed; and any deployment abort ends the entire remaining plan — the
failing group's verification steps and every later component group are
never handed to the runner — while the report carries the failing command
and its exit code. -/
theorem c3_failure_semantics (runner : Command → ExecOutcome) (c : Command) (n : Int)
    (rest : List Command) (k : FalconComponent) (cmds : List Command)
    (gs : List (FalconComponent × List Command)) :
    (runner c = .exited n → n ≠ 0 → c.can_fail = true →
      runDeploy runner (c :: rest)
        = (c :: (runDeploy runner rest).1, (runDeploy runner rest).2))
    ∧ (runner c = .exited n → n ≠ 0 → c.can_fail = false →
      runDeploy runner (c :: rest) = ([c], some (.cmdFailed c n)))
    ∧ (∀ a : AbortInfo,
      (runDeploy runner (cmds.filter (fun x => !x.is_verification))).2 = some a →
      runGroups runner ((k, cmds) :: gs)
        = ⟨(runDeploy runner (cmds.filter (fun x => !x.is_verification))).1,
           none, some a, []⟩) := by
  refine ⟨fun hr hn hcf => ?_, fun hr hn hcf => ?_, fun a ha => ?_⟩
  · rw [runDeploy, hr]
    simp only [hcf, Bool.not_true, Bool.and_false, Bool.false_eq_true, if_false]
  · rw [runDeploy, hr]
    simp [hn, hcf]
  · rw [runGroups]
    rcases hrd : runDeploy runner (cmds.filter (fun x => !x.is_verification))
      with ⟨dcalls, ab⟩
    rw [hrd] at ha
    cases ha
    rfl

/-- A runner for the executor witnesses: one step fails tolerably with
exit 1, one fails fatally with exit 2, one executable is missing, and
everything else succeeds. -/
def runnerW (c : Command) : ExecOutcome :=
  if c.description = "tolerant-step" then .exited 1
  else if c.description = "fatal-step" then .exited 2
  else if c.description = "missing-step" then .notFound
  else .exited 0

def stepTolerant : Command :=
  { component := .SENSOR, description := "tolerant-step",
    cmd_list := ["kubectl", "create", "namespace", "falcon-system"],
    capture_output := false, can_fail := true }

def stepFatal : Command :=
  { component := .SENSOR, description := "fatal-step",
    cmd_list := ["kubectl", "label", "ns", "falcon-system"],
    capture_output := false }

def stepMissing : Command :=
  { component := .SENSOR, description := "missing-step",
    cmd_list := ["kubectl-missing", "rollout"], is_verification := true }

/-- The same missing-executable step occurring as a deployment step. -/
def stepMissingDeploy : Command := { stepMissing with is_verification := false }

/-- C3, witness: the three conclusions at concrete steps — the tolerant
failure continues, the fatal one aborts with command and exit code 2, and
the abort ends the plan before the IAR group. -/
theorem c3_witness :
    runDeploy runnerW [stepTolerant, stepFatal]
      = (stepTolerant :: (runDeploy runnerW [stepFatal]).1,
         (runDeploy runnerW [stepFatal]).2)
    ∧ runDeploy runnerW [stepFatal, stepTolerant]
      = ([stepFatal], some (.cmdFailed stepFatal 2))
    ∧ runGroups runnerW ((FalconComponent.SENSOR, [stepFatal, stepVerifyA])
          :: [(FalconComponent.IAR, [stepDeployB])])
      = ⟨(runDeploy runnerW ([stepFatal, stepVerifyA].filter
            (fun x => !x.is_verification))).1, none,
         some (.cmdFailed stepFatal 2), []⟩ :=
  ⟨(c3_failure_semantics runnerW stepTolerant 1 [stepFatal] .SENSOR [] []).1
      rfl (by decide) rfl,
   (c3_failure_semantics runnerW stepFatal 2 [stepTolerant] .SENSOR [] []).2.1
      rfl (by decide) rfl,
   (c3_failure_semantics runnerW stepFatal 2 [] .SENSOR [stepFatal, stepVerifyA]
      [(FalconComponent.IAR, [stepDeployB])]).2.2
      (.cmdFailed stepFatal 2) (by decide)⟩

/-- C7, counterexample.  The claim says an executable-not-found during
verification aborts that component's remaining verification steps.  It
does not: the handler records the failure and the loop continues — the
second verification step is still handed to the runner after the first
one's executable is missing. -/
theorem c7_counterexample :
    (execute_commands_wizard runnerW true [stepMissing, stepVerifyA]).runnerCalls
      = [stepMissing, stepVerifyA]
    ∧ (execute_commands_wizard runnerW true [stepMissing, stepVerifyA]).verifyResults
      = [(.SENSOR, false)] := by decide

/-- C7, amended.  Executable-not-found is handled distinctly from a
non-zero exit: during deployment it aborts the step's component run —
carrying a `cmdNotFound` abort with no exit code, and the whole remaining
plan stops with only the attempted prefix handed to the runner; during
verification the failure is recorded against that component (its
verification verdict is false), but the remaining verification steps still
run.  In neither case is any command outside the plan tried — no fallback
binaries. -/
theorem c7_not_found_semantics (runner : Command → ExecOutcome) (c : Command)
    (rest : List Command) (k : FalconComponent) (cmds : List Command)
    (gs : List (FalconComponent × List Command)) :
    (runner c = .notFound →
      runDeploy runner (c :: rest) = ([c], some (.cmdNotFound c)))
    ∧ (∀ a : AbortInfo,
      (runDeploy runner (cmds.filter (fun x => !x.is_verification))).2 = some a →
      runGroups runner ((k, cmds) :: gs)
        = ⟨(runDeploy runner (cmds.filter (fun x => !x.is_verification))).1,
           none, some a, []⟩)
    ∧ ((runDeploy runner (cmds.filter (fun x => !x.is_verification))).2 = none →
      (runGroups runner ((k, cmds) :: gs)).runnerCalls
        = (runDeploy runner (cmds.filter (fun x => !x.is_verification))).1
          ++ cmds.filter (fun x => x.is_verification)
          ++ (runGroups runner gs).runnerCalls
      ∧ (runGroups runner ((k, cmds) :: gs)).verifyResults
        = (k, runVerify runner (cmds.filter (fun x => x.is_verification)))
            :: (runGroups runner gs).verifyResults)
    ∧ (runner c = .notFound → c ∈ cmds.filter (fun x => x.is_verification) →
      runVerify runner (cmds.filter (fun x => x.is_verification)) = false) := by
  refine ⟨fun hr => ?_, fun a ha => ?_, fun hnone => ?_, fun hr hmem => ?_⟩
  · rw [runDeploy, hr]
  · rw [runGroups]
    rcases hrd : runDeploy runner (cmds.filter (fun x => !x.is_verification))
      with ⟨dcalls, ab⟩
    rw [hrd] at ha
    cases ha
    rfl
  · rw [runGroups]
    rcases hrd : runDeploy runner (cmds.filter (fun x => !x.is_verification))
      with ⟨dcalls, ab⟩
    rw [hrd] at hnone
    cases hnone
    exact ⟨rfl, rfl⟩
  · rw [runVerify, List.all_eq_false]
    refine ⟨c, hmem, ?_⟩
    rw [hr]
    decide

/-- C7, witness: the amended semantics at concrete steps — a missing
executable in a deployment step aborts with `cmdNotFound`, the abort ends
the plan, a fully-deployed group runs all its verification steps, and a
missing executable among them makes the component's verdict false. -/
theorem c7_witness :
    (runDeploy runnerW [stepMissingDeploy, stepFatal]
      = ([stepMissingDeploy], some (.cmdNotFound stepMissingDeploy)))
    ∧ (runGroups runnerW ((FalconComponent.SENSOR,
          [stepMissingDeploy, stepVerifyA]) :: [])
        = ⟨(runDeploy runnerW ([stepMissingDeploy,
              stepVerifyA].filter (fun x => !x.is_verification))).1,
           none, some (.cmdNotFound stepMissingDeploy), []⟩)
    ∧ ((runGroups runnerW ((FalconComponent.SENSOR, [stepMissing, stepVerifyA])
          :: [])).runnerCalls
        = (runDeploy runnerW ([stepMissing, stepVerifyA].filter
            (fun x => !x.is_verification))).1
          ++ [stepMissing, stepVerifyA].filter (fun x => x.is_verification)
          ++ (runGroups runnerW []).runnerCalls
      ∧ (runGroups runnerW ((FalconComponent.SENSOR, [stepMissing, stepVerifyA])
          :: [])).verifyResults
        = (FalconComponent.SENSOR, runVerify runnerW ([stepMissing, stepVerifyA].filter
            (fun x => x.is_verification)))
            :: (runGroups runnerW []).verifyResults)
    ∧ runVerify runnerW ([stepMissing, stepVerifyA].filter
        (fun x => x.is_verification)) = false :=
  ⟨(c7_not_found_semantics runnerW stepMissingDeploy
      [stepFatal] .SENSOR [] []).1 rfl,
   (c7_not_found_semantics runnerW stepMissingDeploy
      [] .SENSOR [stepMissingDeploy, stepVerifyA] []).2.1
      (.cmdNotFound stepMissingDeploy) (by decide),
   (c7_not_found_semantics runnerW stepMissing [] .SENSOR [stepMissing, stepVerifyA]
      []).2.2.1 (by decide),
   (c7_not_found_semantics runnerW stepMissing [] .SENSOR [stepMissing, stepVerifyA]
      []).2.2.2 rfl (by decide)⟩

/-! ### Claims C8 and C9 — the RuntimeAnalyzer payload -/

theorem hasKey_optStr (k : String) (x : Option String) : Val.hasKey k (optStr x) = false := by
  cases x <;> rfl

theorem getKey_setNested_ne (d : Dict) (k1 k2 : String) (v : Val) {k : String}
    (h : k1 ≠ k) : getKey (setNested d k1 k2 v) k = getKey d k := by
  induction d with
  | nil => rfl
  | cons kv rest ih =>
    obtain ⟨k0, v0⟩ := kv
    simp only [setNested, List.map_cons] at *
    by_cases hk : k0 = k1
    · rw [if_pos hk]
      rw [getKey, getKey]
      have hne : k0 ≠ k := fun e => h (hk ▸ e)
      rw [if_neg hne, if_neg hne]
      exact ih
    · rw [if_neg hk]
      rw [getKey, getKey]
      by_cases hkk : k0 = k
      · rw [if_pos hkk, if_pos hkk]
      · rw [if_neg hkk, if_neg hkk]
        exact ih

/-- A mode-`socket` RuntimeAnalyzer configuration, as the wizard builds
it. -/
def cfgIARsocket : ComponentConfig :=
  { namespace_ := "falcon-imageanalyzer", image_tag := "1.0.0",
    image_repo := "localhost:5000/falcon-imageanalyzer",
    cluster_name := some "mycluster", iar_mode := some "socket",
    iar_runtime := some "containerd" }

/-- C8, counterexample.  The claim quantifies over every RuntimeAnalyzer
configuration, but `extra_values` is merged last with last-write-wins: an
overlay `{"daemonset": {"enabled": false}}` leaves a `"socket"`-mode
payload with the daemonset disabled, against the claimed flag pattern. -/
theorem c8_counterexample :
    getKey (IAR_to_values_dict
        { cfgIARsocket with
          extra_values := [("daemonset", .obj [("enabled", .bool false)])] }
        cfgPlain false) "daemonset"
      = some (.obj [("enabled", .bool false)]) := rfl

/-- C8, amended.  Provided the `extra_values` overlay does not set the
`deployment`, `daemonset` or `crowdstrikeConfig` keys: in `"socket"` mode
the payload enables the daemonset, disables the deployment, and its
`crowdstrikeConfig` object carries an `agentRuntime` field; in
`"watcher"` mode the flags are inverted and no `agentRuntime` field is
present — the two enable flags are mutually exclusive in both modes. -/
theorem c8_iar_mode_payload (cfg : ComponentConfig) (parent : DeploymentConfig)
    (no_sensitive : Bool)
    (hext : ∀ kv ∈ cfg.extra_values,
      kv.1 ≠ "deployment" ∧ kv.1 ≠ "daemonset" ∧ kv.1 ≠ "crowdstrikeConfig") :
    (cfg.iar_mode = some "socket" →
      getKey (IAR_to_values_dict cfg parent no_sensitive) "daemonset"
        = some (.obj [("enabled", .bool true)])
      ∧ getKey (IAR_to_values_dict cfg parent no_sensitive) "deployment"
        = some (.obj [("enabled", .bool false)])
      ∧ ∃ o, getKey (IAR_to_values_dict cfg parent no_sensitive) "crowdstrikeConfig"
          = some (.obj o) ∧ hasKeyDict "agentRuntime" o = true)
    ∧ (cfg.iar_mode = some "watcher" →
      getKey (IAR_to_values_dict cfg parent no_sensitive) "deployment"
        = some (.obj [("enabled", .bool true)])
      ∧ getKey (IAR_to_values_dict cfg parent no_sensitive) "daemonset"
        = some (.obj [("enabled", .bool false)])
      ∧ ∃ o, getKey (IAR_to_values_dict cfg parent no_sensitive) "crowdstrikeConfig"
          = some (.obj o) ∧ hasKeyDict "agentRuntime" o = false) := by
  have hdep : getKey (IAR_to_values_dict cfg parent no_sensitive) "deployment"
      = getKey (IAR_values_core cfg parent no_sensitive) "deployment" :=
    getKey_updateDict_of_ne _ (fun kv h => (hext kv h).1)
  have hdae : getKey (IAR_to_values_dict cfg parent no_sensitive) "daemonset"
      = getKey (IAR_values_core cfg parent no_sensitive) "daemonset" :=
    getKey_updateDict_of_ne _ (fun kv h => (hext kv h).2.1)
  have hcsc : getKey (IAR_to_values_dict cfg parent no_sensitive) "crowdstrikeConfig"
      = getKey (IAR_values_core cfg parent no_sensitive) "crowdstrikeConfig" :=
    getKey_updateDict_of_ne _ (fun kv h => (hext kv h).2.2)
  constructor
  · intro hmode
    refine ⟨?_, ?_, ?_⟩
    · rw [hdae]
      unfold IAR_values_core
      rw [hmode]
      rcases eq_or_ne parent.registry_token "" with hreg | hreg
      · rw [hreg]
        cases no_sensitive <;> rfl
      · rw [if_pos hreg, getKey_setNested_ne _ _ _ _ (by decide)]
        cases no_sensitive <;> rfl
    · rw [hdep]
      unfold IAR_values_core
      rw [hmode]
      rcases eq_or_ne parent.registry_token "" with hreg | hreg
      · rw [hreg]
        cases no_sensitive <;> rfl
      · rw [if_pos hreg, getKey_setNested_ne _ _ _ _ (by decide)]
        cases no_sensitive <;> rfl
    · rw [hcsc]
      unfold IAR_values_core
      rw [hmode]
      rcases hcn : cfg.cluster_name with _ | cn <;>
        rcases hrt : cfg.iar_runtime with _ | rt <;>
        rcases eq_or_ne parent.registry_token "" with hreg | hreg <;>
      first
        | (rw [hreg]; cases no_sensitive <;> exact ⟨_, rfl, rfl⟩)
        | (rw [if_pos hreg, getKey_setNested_ne _ _ _ _ (by decide)];
           cases no_sensitive <;> exact ⟨_, rfl, rfl⟩)
  · intro hmode
    refine ⟨?_, ?_, ?_⟩
    · rw [hdep]
      unfold IAR_values_core
      rw [hmode]
      rcases eq_or_ne parent.registry_token "" with hreg | hreg
      · rw [hreg]
        cases no_sensitive <;> rfl
      · rw [if_pos hreg, getKey_setNested_ne _ _ _ _ (by decide)]
        cases no_sensitive <;> rfl
    · rw [hdae]
      unfold IAR_values_core
      rw [hmode]
      rcases eq_or_ne parent.registry_token "" with hreg | hreg
      · rw [hreg]
        cases no_sensitive <;> rfl
      · rw [if_pos hreg, getKey_setNested_ne _ _ _ _ (by decide)]
        cases no_sensitive <;> rfl
    · rw [hcsc]
      unfold IAR_values_core
      rw [hmode]
      rcases hcn : cfg.cluster_name with _ | cn <;>
        rcases eq_or_ne parent.registry_token "" with hreg | hreg <;>
      first
        | (rw [hreg]; cases no_sensitive <;> exact ⟨_, rfl, rfl⟩)
        | (rw [if_pos hreg, getKey_setNested_ne _ _ _ _ (by decide)];
           cases no_sensitive <;> exact ⟨_, rfl, rfl⟩)

/-- C8, witness: the amended statement at the concrete wizard-built
configurations (no overlay), for both modes. -/
theorem c8_witness :
    (getKey (IAR_to_values_dict cfgIARsocket cfgPlain false) "daemonset"
        = some (.obj [("enabled", .bool true)])
      ∧ getKey (IAR_to_values_dict cfgIARsocket cfgPlain false) "deployment"
        = some (.obj [("enabled", .bool false)])
      ∧ ∃ o, getKey (IAR_to_values_dict cfgIARsocket cfgPlain false) "crowdstrikeConfig"
          = some (.obj o) ∧ hasKeyDict "agentRuntime" o = true)
    ∧ (getKey (IAR_to_values_dict { cfgIARsocket with iar_mode := some "watcher" }
          cfgPlain false) "deployment" = some (.obj [("enabled", .bool true)])
      ∧ getKey (IAR_to_values_dict { cfgIARsocket with iar_mode := some "watcher" }
          cfgPlain false) "daemonset" = some (.obj [("enabled", .bool false)])
      ∧ ∃ o, getKey (IAR_to_values_dict { cfgIARsocket with iar_mode := some "watcher" }
            cfgPlain false) "crowdstrikeConfig"
          = some (.obj o) ∧ hasKeyDict "agentRuntime" o = false) :=
  ⟨(c8_iar_mode_payload cfgIARsocket cfgPlain false (by simp [cfgIARsocket])).1 rfl,
   (c8_iar_mode_payload { cfgIARsocket with iar_mode := some "watcher" } cfgPlain false
      (by simp [cfgIARsocket])).2 rfl⟩

theorem hasKeyDict_setKey {d : Dict} {k k' : String} {v : Val}
    (h1 : hasKeyDict k d = false) (h2 : k' ≠ k) (h3 : Val.hasKey k v = false) :
    hasKeyDict k (setKey d k' v) = false := by
  induction d with
  | nil => simp [setKey, hasKeyDict, h2, h3]
  | cons kv rest ih =>
    obtain ⟨k0, v0⟩ := kv
    rw [hasKeyDict] at h1
    simp only [Bool.or_eq_false_iff] at h1
    obtain ⟨⟨h10, h1v⟩, h1r⟩ := h1
    rw [setKey]
    by_cases hk : k0 = k'
    · rw [if_pos hk]
      rw [hasKeyDict]
      simp [h10, h3, h1r]
    · rw [if_neg hk]
      rw [hasKeyDict]
      simp [h10, h1v, ih h1r]

theorem hasKeyDict_updateDict {d e : Dict} {k : String}
    (hd : hasKeyDict k d = false) (he : hasKeyDict k e = false) :
    hasKeyDict k (updateDict d e) = false := by
  induction e generalizing d with
  | nil => exact hd
  | cons kv rest ih =>
    obtain ⟨k0, v0⟩ := kv
    rw [hasKeyDict] at he
    simp only [Bool.or_eq_false_iff] at he
    obtain ⟨⟨he0, hev⟩, her⟩ := he
    have he0' : k0 ≠ k := by
      intro e
      rw [e] at he0
      simp at he0
    exact ih (hasKeyDict_setKey hd he0' hev) her

theorem hasKeyDict_ite (c : Prop) [Decidable c] (a b : Dict) (k : String)
    (ha : hasKeyDict k a = false) (hb : hasKeyDict k b = false) :
    hasKeyDict k (if c then a else b) = false := by
  split_ifs <;> assumption

theorem hasKeyDict_setNested {d : Dict} {k k1 k2 : String} {v : Val}
    (hd : hasKeyDict k d = false) (h2 : k2 ≠ k) (h3 : Val.hasKey k v = false) :
    hasKeyDict k (setNested d k1 k2 v) = false := by
  induction d with
  | nil => rfl
  | cons kv rest ih =>
    obtain ⟨k0, v0⟩ := kv
    rw [hasKeyDict] at hd
    simp only [Bool.or_eq_false_iff] at hd
    obtain ⟨⟨hd0, hdv⟩, hdr⟩ := hd
    simp only [setNested, List.map_cons]
    by_cases hk : k0 = k1
    · rw [if_pos hk]
      rw [hasKeyDict]
      refine (Bool.or_eq_false_iff).2 ⟨(Bool.or_eq_false_iff).2 ⟨hd0, ?_⟩, ?_⟩
      · rcases v0 with _ | _ | _ | o
        · exact hdv
        · exact hdv
        · exact hdv
        · rw [Val.hasKey] at hdv ⊢
          exact hasKeyDict_setKey hdv h2 h3
      · exact ih hdr
    · rw [if_neg hk]
      rw [hasKeyDict]
      refine (Bool.or_eq_false_iff).2 ⟨(Bool.or_eq_false_iff).2 ⟨hd0, hdv⟩, ih hdr⟩

/-- With the secret omitted, no key anywhere in the pre-overlay payload is
`clientSecret`, whatever the mode, cluster name, runtime and registry
token. -/
theorem IAR_core_no_secret (cfg : ComponentConfig) (parent : DeploymentConfig) :
    hasKeyDict "clientSecret" (IAR_values_core cfg parent true) = false := by
  unfold IAR_values_core
  rcases hcn : cfg.cluster_name with _ | cn <;>
    rcases hrt : cfg.iar_runtime with _ | rt <;>
    refine hasKeyDict_ite _ _ _ _
      (hasKeyDict_setNested (hasKeyDict_ite _ _ _ _ rfl
          (hasKeyDict_ite _ _ _ _ (hasKeyDict_setNested rfl (by decide) (by rfl)) rfl))
        (by decide) rfl)
      (hasKeyDict_ite _ _ _ _ rfl
        (hasKeyDict_ite _ _ _ _ (hasKeyDict_setNested rfl (by decide) (by rfl)) rfl))

/-- C9, counterexample.  With `omitSecret` true the renderer itself adds
no secret, but the `extra_values` overlay can: replacing the whole
`crowdstrikeConfig` object re-introduces a `clientSecret` field. -/
theorem c9_counterexample :
    hasKeyDict "clientSecret" (IAR_to_values_dict
        { cfgIARsocket with
          extra_values := [("crowdstrikeConfig", .obj [("clientSecret", .str "x")])] }
        cfgPlain true) = true := rfl

/-- C9, amended.  For every RuntimeAnalyzer configuration whose
`extra_values` overlay contains no `clientSecret` key itself, and every
mode, the payload rendered with `omitSecret` true contains no
`clientSecret` field anywhere. -/
theorem c9_omit_secret (cfg : ComponentConfig) (parent : DeploymentConfig)
    (hext : hasKeyDict "clientSecret" cfg.extra_values = false) :
    hasKeyDict "clientSecret" (IAR_to_values_dict cfg parent true) = false :=
  hasKeyDict_updateDict (IAR_core_no_secret cfg parent) hext

/-- C9, witness: the concrete socket-mode configuration with no overlay
renders secret-free under `omitSecret`. -/
theorem c9_witness :
    hasKeyDict "clientSecret" (IAR_to_values_dict cfgIARsocket cfgPlain true) = false :=
  c9_omit_secret cfgIARsocket cfgPlain rfl

end SensorHelmInstall
